import Mathlib

/-!
Shallow embedding of the nl80211 netlink client (nl80211.py): the byte
cursor (`Iterator`), the field codecs built on `struct` formats, the
attribute / attribute-set / array TLV codecs, the netlink transport
framing, and the generic-netlink family registry with its bootstrap loop.

Buffers are lists of byte values (`List Nat`, each entry below 256 on
real wire data); machine integers are `Nat` with explicit bounds where
the Python `struct` module would reject out-of-range values.  Python
assertions and exceptions become `Except Err` results.  The `struct`
formats in the source use native byte order with 4-byte longs, embedded
here as little-endian fixed-width fields.
-/

/-- Little-endian value of a byte list, as `struct.unpack` reads it. -/
def unpackLE : List Nat → Nat
  | [] => 0
  | b :: rest => b + 256 * unpackLE rest

/-- Little-endian encoding of `v` in `w` bytes, as `struct.pack` writes it. -/
def packLE : Nat → Nat → List Nat
  | 0, _ => []
  | w + 1, v => v % 256 :: packLE w (v / 256)

/-- Read `w` bytes little-endian starting at `off`, as
`struct.unpack_from(data, off)` does for one fixed-width field. -/
def readLE (data : List Nat) (off w : Nat) : Nat :=
  unpackLE ((data.drop off).take w)

/-- Decode failures: Python assertion errors, `KeyError`, `struct.error`
and attribute errors, tagged by the assertion that fired. -/
inductive Err where
  | outOfRange (want rem : Nat)
  | structErr
  | unknownAttribute (atype alen : Nat)
  | remainingBytes (n : Nat)
  | keyError
  | valueErr
  | assertFail
  | blocked
  | fuelOut
deriving DecidableEq

/-- The bounds-checked byte cursor of nl80211.py (`Iterator`):
`data` with a read window from `offset` to `length`. -/
structure Iterator where
  data : List Nat
  offset : Nat
  length : Nat
deriving DecidableEq

/-- Cursor over a whole fresh buffer, as `Iterator(data)` builds it. -/
def Iterator.ofBytes (data : List Nat) : Iterator :=
  ⟨data, 0, data.length⟩

def Iterator.Remaining (it : Iterator) : Nat :=
  it.length - it.offset

def Iterator.AtEnd (it : Iterator) : Bool :=
  it.Remaining = 0

def Iterator.Advance (it : Iterator) (n : Nat) : Except Err Iterator :=
  if n ≤ it.Remaining then .ok { it with offset := it.offset + n }
  else .error (.outOfRange n it.Remaining)

def Iterator.Extract (it : Iterator) (n : Nat) : Except Err (List Nat × Iterator) :=
  if n ≤ it.Remaining then
    .ok ((it.data.drop it.offset).take n, { it with offset := it.offset + n })
  else .error (.outOfRange n it.Remaining)

def Iterator.ExtractIterator (it : Iterator) (n : Nat) :
    Except Err (Iterator × Iterator) :=
  if n ≤ it.Remaining then
    .ok (⟨it.data, it.offset, it.offset + n⟩, { it with offset := it.offset + n })
  else .error (.outOfRange n it.Remaining)

/-- The bytes still visible through the cursor window. -/
def Iterator.window (it : Iterator) : List Nat :=
  (it.data.drop it.offset).take it.Remaining

/-- SingleStructParser.Unpack for a one-field format of width `w`:
`unpack_from` reads from the backing buffer (failing with `struct.error`
when the buffer itself is too short), then `Advance` checks the window. -/
def singleUnpack (w : Nat) (it : Iterator) : Except Err (Nat × Iterator) :=
  if it.offset + w ≤ it.data.length then
    match it.Advance w with
    | .ok it' => .ok (readLE it.data it.offset w, it')
    | .error e => .error e
  else .error .structErr

/-- SingleStructParser.Pack: append the fixed-width encoding; `struct.pack`
rejects out-of-range values. -/
def singlePack (w : Nat) (acc : List Nat) (v : Nat) : Option (List Nat) :=
  if v < 2 ^ (8 * w) then some (acc ++ packLE w v) else none

/-- StringParser.Unpack: extract every byte remaining in the window. -/
def stringUnpack (it : Iterator) : Except Err (List Nat × Iterator) :=
  it.Extract it.Remaining

/-- StringParser.Pack: append the raw bytes. -/
def stringPack (acc : List Nat) (v : List Nat) : List Nat :=
  acc ++ v

/-- StructParser.Unpack for the two-u16 format `HH` shared by the
attribute header (len, type) and the array element header (len, index). -/
def unpackHH (it : Iterator) : Except Err ((Nat × Nat) × Iterator) :=
  if it.offset + 4 ≤ it.data.length then
    match it.Advance 4 with
    | .ok it' => .ok ((readLE it.data it.offset 2, readLE it.data (it.offset + 2) 2), it')
    | .error e => .error e
  else .error .structErr

/-- StructParser.Pack for the `HH` header. -/
def packHH (acc : List Nat) (a b : Nat) : Option (List Nat) :=
  if a < 2 ^ 16 ∧ b < 2 ^ 16 then some (acc ++ packLE 2 a ++ packLE 2 b)
  else none

/-- The decoded outer netlink message header (`_nlmsghdr`, format `LHHLL`). -/
structure NlMsgHdr where
  hlength : Nat
  htype : Nat
  hflags : Nat
  hseq : Nat
  hpid : Nat
deriving DecidableEq

/-- StructParser.Unpack for `_nlmsghdr`: five native fields u32, u16, u16,
u32, u32 read in order, sixteen bytes in all. -/
def nlmsghdrUnpack (it : Iterator) : Except Err (NlMsgHdr × Iterator) :=
  if it.offset + 16 ≤ it.data.length then
    match it.Advance 16 with
    | .ok it' =>
        .ok (⟨readLE it.data it.offset 4,
              readLE it.data (it.offset + 4) 2,
              readLE it.data (it.offset + 6) 2,
              readLE it.data (it.offset + 8) 4,
              readLE it.data (it.offset + 12) 4⟩, it')
    | .error e => .error e
  else .error .structErr

/-- StructParser.Pack for `_nlmsghdr`. -/
def nlmsghdrPack (acc : List Nat) (len ty fl seq pid : Nat) : Option (List Nat) :=
  if len < 2 ^ 32 ∧ ty < 2 ^ 16 ∧ fl < 2 ^ 16 ∧ seq < 2 ^ 32 ∧ pid < 2 ^ 32 then
    some (acc ++ packLE 4 len ++ packLE 2 ty ++ packLE 2 fl ++ packLE 4 seq ++ packLE 4 pid)
  else none

/-- Decoded values: scalars, raw byte strings, the `True` sentinel of the
flag codec, name-keyed mappings, and array elements. -/
inductive Value where
  | nat : Nat → Value
  | bytes : List Nat → Value
  | trueV : Value
  | dict : List (String × Value) → Value
  | arr : List Value → Value

/-- The codec classes of nl80211.py as one polymorphic type:
SingleStructParser of a given width, StringParser, EmptyParser,
multi-field StructParser, Attributes, and Array. -/
inductive Parser where
  | single : Nat → Parser
  | stringP : Parser
  | emptyP : Parser
  | structF : List (String × Nat) → Parser
  | attrsP : List (Nat × String × Parser) → Parser
  | arrayP : Parser → Parser

abbrev AttrTable := List (Nat × String × Parser)

/-- Schema lookup by numeric tag, as `self._attributes.get(type)`. -/
def lookupTag : AttrTable → Nat → Option (String × Parser)
  | [], _ => none
  | (k, nm, p) :: rest, t => if k = t then some (nm, p) else lookupTag rest t

/-- The reverse index `_attribute_idx` mapping attribute name to tag. -/
def lookupName : AttrTable → String → Option Nat
  | [], _ => none
  | (k, nm, _) :: rest, n => if nm = n then some k else lookupName rest n

/-- Python dict lookup on a decoded mapping. -/
def lookupStr : List (String × Value) → String → Option Value
  | [], _ => none
  | (k, v) :: rest, n => if k = n then some v else lookupStr rest n

/-- Python dict assignment: overwrite the binding if the key exists,
append it otherwise. -/
def updateAssoc (m : List (String × Value)) (k : String) (v : Value) :
    List (String × Value) :=
  if m.any (fun p => p.1 == k) then
    m.map (fun p => if p.1 == k then (k, v) else p)
  else m ++ [(k, v)]

/-- Python `dict.update`: fold the new bindings into the mapping. -/
def mergeInto (acc kvs : List (String × Value)) : List (String × Value) :=
  kvs.foldl (fun a kv => updateAssoc a kv.1 kv.2) acc

def structSizeOf (fields : List (String × Nat)) : Nat :=
  (fields.map Prod.snd).sum

def structFieldsRead (data : List Nat) (off : Nat) :
    List (String × Nat) → List (String × Value)
  | [] => []
  | (nm, w) :: rest =>
      (nm, Value.nat (readLE data off w)) :: structFieldsRead data (off + w) rest

/-- StructParser.Unpack for a general fixed-width field list. -/
def structUnpack (fields : List (String × Nat)) (it : Iterator) :
    Except Err (List (String × Value) × Iterator) :=
  if it.offset + structSizeOf fields ≤ it.data.length then
    match it.Advance (structSizeOf fields) with
    | .ok it' => .ok (structFieldsRead it.data it.offset fields, it')
    | .error e => .error e
  else .error .structErr

/-- StructParser.Pack: order the named values by field layout and pack. -/
def structPackFields (vals : List (String × Value)) :
    List (String × Nat) → Option (List Nat)
  | [] => some []
  | (nm, w) :: rest =>
      match lookupStr vals nm with
      | some (Value.nat v) =>
          if v < 2 ^ (8 * w) then
            match structPackFields vals rest with
            | some bs => some (packLE w v ++ bs)
            | none => none
          else none
      | _ => none

mutual

/-- Unpack dispatch over the codec classes, with fuel for the unbounded
while loops of Attributes.Unpack and Array.Unpack. -/
def unpackP : Nat → Parser → Iterator → Except Err (Value × Iterator)
  | 0, _, _ => .error .fuelOut
  | _ + 1, .single w, it =>
      match singleUnpack w it with
      | .ok (v, it') => .ok (.nat v, it')
      | .error e => .error e
  | _ + 1, .stringP, it =>
      match stringUnpack it with
      | .ok (s, it') => .ok (.bytes s, it')
      | .error e => .error e
  | _ + 1, .emptyP, it => .ok (.trueV, it)
  | _ + 1, .structF fields, it =>
      match structUnpack fields it with
      | .ok (kvs, it') => .ok (.dict kvs, it')
      | .error e => .error e
  | fuel + 1, .attrsP table, it =>
      match unpackAttrsGo fuel table [] it with
      | .ok (kvs, it') => .ok (.dict kvs, it')
      | .error e => .error e
  | fuel + 1, .arrayP child, it =>
      match unpackArrayGo fuel child [] it with
      | .ok (vs, it') => .ok (.arr vs, it')
      | .error e => .error e

/-- Attribute.Unpack: read the `HH` header, look the type up in the schema
(UnknownAttribute on a miss), bound a sub-cursor to length − 4 bytes,
run the sub-codec, require the sub-cursor fully consumed, then skip the
alignment padding. -/
def unpackAttrOne : Nat → AttrTable → Iterator →
    Except Err (List (String × Value) × Iterator)
  | 0, _, _ => .error .fuelOut
  | fuel + 1, table, it =>
      match unpackHH it with
      | .error e => .error e
      | .ok ((alen, atype), it1) =>
          match lookupTag table atype with
          | none => .error (.unknownAttribute atype alen)
          | some (nm, sub) =>
              match it1.ExtractIterator (alen - 4) with
              | .error e => .error e
              | .ok (subIt, it2) =>
                  match unpackP fuel sub subIt with
                  | .error e => .error e
                  | .ok (v, subIt') =>
                      if subIt'.AtEnd then
                        match it2.Advance ((alen + 3) / 4 * 4 - alen) with
                        | .ok it3 => .ok ([(nm, v)], it3)
                        | .error e => .error e
                      else .error (.remainingBytes subIt'.Remaining)

/-- Attributes.Unpack: repeat Attribute.Unpack until the window is empty,
merging each result into one mapping with dict.update. -/
def unpackAttrsGo : Nat → AttrTable → List (String × Value) → Iterator →
    Except Err (List (String × Value) × Iterator)
  | 0, _, _, _ => .error .fuelOut
  | fuel + 1, table, acc, it =>
      if it.AtEnd then .ok (acc, it)
      else
        match unpackAttrOne fuel table it with
        | .error e => .error e
        | .ok (kvs, it') => unpackAttrsGo fuel table (mergeInto acc kvs) it'

/-- Array.Unpack: repeat over the window, reading a `HH` header whose
second field (the index) is discarded, bounding a sub-cursor of
length − 4 bytes, decoding the child and requiring full consumption. -/
def unpackArrayGo : Nat → Parser → List Value → Iterator →
    Except Err (List Value × Iterator)
  | 0, _, _, _ => .error .fuelOut
  | fuel + 1, child, acc, it =>
      if it.AtEnd then .ok (acc, it)
      else
        match unpackHH it with
        | .error e => .error e
        | .ok ((alen, _), it1) =>
            match it1.ExtractIterator (alen - 4) with
            | .error e => .error e
            | .ok (subIt, it2) =>
                match unpackP fuel child subIt with
                | .error e => .error e
                | .ok (v, subIt') =>
                    if subIt'.AtEnd then unpackArrayGo fuel child (acc ++ [v]) it2
                    else .error (.remainingBytes subIt'.Remaining)

end

mutual

/-- Pack dispatch over the codec classes; `none` stands for the Python
exceptions (struct.error on a bad scalar, KeyError on a missing name,
and the absent Array Pack method). -/
def packP : Nat → Parser → Value → Option (List Nat)
  | 0, _, _ => none
  | _ + 1, .single w, .nat v => if v < 2 ^ (8 * w) then some (packLE w v) else none
  | _ + 1, .stringP, .bytes s => some s
  | _ + 1, .emptyP, _ => some []
  | _ + 1, .structF fields, .dict vals => structPackFields vals fields
  | fuel + 1, .attrsP table, .dict vals => attrsPackGo fuel table [] vals
  | _ + 1, _, _ => none

/-- Attribute.Pack: serialize the value into a scratch buffer to learn its
length, write the header with length 4 + scratch length, append the
scratch bytes, then zero padding to the next 4-byte boundary. -/
def attrPack : Nat → AttrTable → List Nat → Nat → Value → Option (List Nat)
  | 0, _, _, _, _ => none
  | fuel + 1, table, acc, atype, v =>
      match lookupTag table atype with
      | none => none
      | some (_, sub) =>
          match packP fuel sub v with
          | none => none
          | some payload =>
              match packHH acc (4 + payload.length) atype with
              | none => none
              | some withHdr =>
                  some (withHdr ++ payload ++
                    List.replicate ((4 + payload.length + 3) / 4 * 4
                      - (4 + payload.length)) 0)

/-- Attributes.Pack: resolve each name through the reverse index and run
Attribute.Pack once per named value. -/
def attrsPackGo : Nat → AttrTable → List Nat → List (String × Value) →
    Option (List Nat)
  | 0, _, _, _ => none
  | _ + 1, _, acc, [] => some acc
  | fuel + 1, table, acc, (nm, v) :: rest =>
      match lookupName table nm with
      | none => none
      | some atype =>
          match attrPack fuel table acc atype v with
          | none => none
          | some acc' => attrsPackGo fuel table acc' rest

end

/-- The field codec instances declared at module level in nl80211.py. -/
def u8 : Parser := .single 1
def u16 : Parser := .single 2
def u32 : Parser := .single 4
def u64 : Parser := .single 8
def stringC : Parser := .stringP
def flagC : Parser := .emptyP

/-- Generic string-keyed lookup used for the flag table and command tables. -/
def lookupStrNat : List (String × Nat) → String → Option Nat
  | [], _ => none
  | (k, v) :: rest, n => if k = n then some v else lookupStrNat rest n

/-- The symbolic flag combinators of Netlink.flags. -/
def netlinkFlags : List (String × Nat) :=
  [("root", 0x100), ("match", 0x200), ("atomic", 0x400), ("dump", 0x100 ||| 0x200)]

/-- Fold the named flags onto an accumulator, as Netlink.Send does. -/
def flagIntGo : Nat → List String → Except Err Nat
  | acc, [] => .ok acc
  | acc, f :: rest =>
      match lookupStrNat netlinkFlags f with
      | none => .error .keyError
      | some v => flagIntGo (acc ||| v) rest

/-- The flag word sent on the wire: NLMSG_F_REQUEST plus the named flags. -/
def flagInt (fs : List String) : Except Err Nat :=
  flagIntGo 1 fs

/-- Netlink.Send: pack the outer header with length = payload length plus
header size and append the payload, one datagram.  The random sequence
number and the process id are inputs here. -/
def netlinkSend (msgtype : Nat) (flags : List String) (seq pid : Nat)
    (msg : List Nat) : Except Err (List Nat) :=
  match flagInt flags with
  | .error e => .error e
  | .ok fi =>
      match nlmsghdrPack [] (msg.length + 16) msgtype fi seq pid with
      | none => .error .structErr
      | some hdr => .ok (hdr ++ msg)

mutual

/-- Netlink.Recv outer loop: take the next datagram off the socket
(`blocked` when the modelled datagram supply runs out, where the real
code would block forever) and frame it.  The accumulator collects the
yields of the generator and the counter the datagrams consumed. -/
def recvOuter : Nat → List (List Nat) → List (Nat × List Nat) → Nat →
    Except Err (List (Nat × List Nat) × Nat)
  | 0, _, _, _ => .error .fuelOut
  | _ + 1, [], _, _ => .error .blocked
  | fuel + 1, d :: rest, acc, nread =>
      recvInner fuel (Iterator.ofBytes d) rest acc (nread + 1)

/-- Netlink.Recv inner loop: frame header-delimited sub-messages out of
the current datagram.  A type 3 message ends the sequence discarding the
rest of the datagram; otherwise the (type, payload window) pair is
yielded, and a cleared multi-part flag ends the sequence right after
that yield; an exhausted datagram sends control back for another read. -/
def recvInner : Nat → Iterator → List (List Nat) → List (Nat × List Nat) → Nat →
    Except Err (List (Nat × List Nat) × Nat)
  | 0, _, _, _, _ => .error .fuelOut
  | fuel + 1, it, rest, acc, nread =>
      if it.AtEnd then recvOuter fuel rest acc nread
      else
        match nlmsghdrUnpack it with
        | .error e => .error e
        | .ok (hdr, it1) =>
            if hdr.htype = 3 then .ok (acc, nread)
            else
              match it1.ExtractIterator (hdr.hlength - 16) with
              | .error e => .error e
              | .ok (subIt, it2) =>
                  if hdr.hflags &&& 2 = 0 then .ok (acc ++ [(hdr.htype, subIt.window)], nread)
                  else recvInner fuel it2 rest (acc ++ [(hdr.htype, subIt.window)]) nread

end

/-- One family descriptor of the generic-netlink registry. -/
structure MsgType where
  id : Nat
  name : List Nat
  parser : Option Parser
  commands : Option (List (String × Nat))

/-- The by-name index `_msgtypes_by_name`: a dict comprehension over the
descriptor list, so a later entry with the same name wins. -/
def byName : List MsgType → List Nat → Option MsgType
  | [], _ => none
  | m :: rest, n =>
      match byName rest n with
      | some r => some r
      | none => if m.name = n then some m else none

/-- The by-id index `_msgtypes_by_id`, likewise later-entry-wins. -/
def byId : List MsgType → Nat → Option MsgType
  | [], _ => none
  | m :: rest, i =>
      match byId rest i with
      | some r => some r
      | none => if m.id = i then some m else none

/-- Python str.rstrip with a NUL argument: drop trailing zero bytes. -/
def rstripNul (s : List Nat) : List Nat :=
  (s.reverse.dropWhile (fun b => b == 0)).reverse

/-- Python dict indexing on a decoded attribute mapping (KeyError on miss). -/
def getAttr (attrs : List (String × Value)) (k : String) : Except Err Value :=
  match lookupStr attrs k with
  | none => .error .keyError
  | some v => .ok v

def valueBytes : Value → Except Err (List Nat)
  | .bytes s => .ok s
  | _ => .error .valueErr

def valueNat : Value → Except Err Nat
  | .nat n => .ok n
  | _ => .error .valueErr

/-- The family name a bootstrap response contributes: the decoded
family_name attribute with trailing NUL bytes stripped. -/
def respName (attrs : List (String × Value)) : Except Err (List Nat) :=
  match getAttr attrs ("family_name") with
  | .error e => .error e
  | .ok v =>
      match valueBytes v with
      | .error e => .error e
      | .ok s => .ok (rstripNul s)

/-- The numeric family id a bootstrap response carries. -/
def respId (attrs : List (String × Value)) : Except Err Nat :=
  match getAttr attrs ("family_id") with
  | .error e => .error e
  | .ok v => valueNat v

def nlctrlName : List Nat := [0x6E, 0x6C, 0x63, 0x74, 0x72, 0x6C]

def opAttr : Parser := .attrsP [(1, ("id", u32)), (2, ("flags", u32))]

def mcastGrpAttr : Parser := .attrsP [(1, ("name", stringC)), (2, ("id", u32))]

/-- The built-in metadata schema `_ctrl_attr` of the control family. -/
def ctrlAttr : Parser :=
  .attrsP [(1, ("family_id", u16)), (2, ("family_name", stringC)),
           (3, ("version", u32)), (4, ("hdrsize", u32)), (5, ("maxattr", u32)),
           (6, ("ops", .arrayP opAttr)), (7, ("mcast_groups", .arrayP mcastGrpAttr))]

def nlctrlCommands : List (String × Nat) := [("newfamily", 1), ("getfamily", 3)]

/-- The registry as GenericNetlink.__init__ seeds it: the hard-coded
control family descriptor. -/
def initialMsgTypes : List MsgType :=
  [⟨0x10, nlctrlName, some ctrlAttr, some nlctrlCommands⟩]

/-- The bootstrap loop of GenericNetlink.__init__ over already-decoded
(command, attribute-mapping) responses.  `stale` is the registry snapshot
whose by-name index was built just before the loop; the loop consults it
for every lookup while appending only to the growing list `st`, because
_UpdateMsgTypes runs again only after the loop. -/
def bootstrapLoop (stale : List MsgType) :
    List MsgType → List (Nat × List (String × Value)) → Except Err (List MsgType)
  | st, [] => .ok st
  | st, (cmd, attrs) :: rest =>
      match byName stale nlctrlName with
      | none => .error .keyError
      | some nc =>
          match nc.commands with
          | none => .error .valueErr
          | some cs =>
              match lookupStrNat cs ("newfamily") with
              | none => .error .keyError
              | some nf =>
                  if cmd = nf then
                    match respName attrs with
                    | .error e => .error e
                    | .ok fname =>
                        match respId attrs with
                        | .error e => .error e
                        | .ok fid =>
                            match byName stale fname with
                            | some ex =>
                                if fid = ex.id then bootstrapLoop stale st rest
                                else .error .assertFail
                            | none =>
                                bootstrapLoop stale
                                  (st ++ [⟨fid, fname, none, none⟩]) rest
                  else .error .assertFail

/-- One full run of the bootstrap resolution against a fixed response
sequence, starting and ending with an _UpdateMsgTypes rebuild (the
indices being derived views of the list here). -/
def bootstrapRun (st : List MsgType) (rs : List (Nat × List (String × Value))) :
    Except Err (List MsgType) :=
  bootstrapLoop st st rs

/-- RegisterMsgType mutates the descriptor the by-name index holds, which
is the last list entry carrying that name; KeyError when the name was
never discovered. -/
def updateLastByName : List MsgType → List Nat → Parser → List (String × Nat) →
    List MsgType
  | [], _, _, _ => []
  | m :: rest, n, p, c =>
      if (byName rest n).isSome then m :: updateLastByName rest n p c
      else if m.name = n then { m with parser := some p, commands := some c } :: rest
      else m :: rest

def RegisterMsgTypeF (l : List MsgType) (n : List Nat) (p : Parser)
    (c : List (String × Nat)) : Except Err (List MsgType) :=
  match byName l n with
  | none => .error .keyError
  | some _ => .ok (updateLastByName l n p c)

/-- The sixteen header bytes `_nlmsghdr` lays down for given field values. -/
def hdrBytes (L T F S P : Nat) : List Nat :=
  packLE 4 L ++ packLE 2 T ++ packLE 2 F ++ packLE 4 S ++ packLE 4 P
/-- A wire message as the transport frames it: a 16-byte header whose
length field is 16 plus the payload length, then the payload. -/
def mkMsg (ty fl seq pid : Nat) (payload : List Nat) : List Nat :=
  hdrBytes (payload.length + 16) ty fl seq pid ++ payload
/-- What a successful Unpack call preserves about its cursor: the buffer
and window bound are untouched, the offset never decreases and stays
inside the window. -/
def Pres (it it' : Iterator) : Prop :=
  it'.data = it.data ∧ it'.length = it.length ∧ it.offset ≤ it'.offset ∧
    (it.offset ≤ it.length → it'.offset ≤ it'.length)
/-- When two bootstrap responses carry the same family name they carry
the same family id. -/
def RespConsistent (rs : List (Nat × List (String × Value))) : Prop :=
  ∀ r r', r ∈ rs → r' ∈ rs → ∀ n i i',
    respName r.2 = .ok n → respName r'.2 = .ok n →
    respId r.2 = .ok i → respId r'.2 = .ok i' → i = i'
def fooName : List Nat := [0x66, 0x6F, 0x6F]

/-- Two bootstrap responses announcing the same family name with two
different ids. -/
def dupResponses : List (Nat × List (String × Value)) :=
  [(1, [("family_name", .bytes fooName), ("family_id", .nat 0x20)]),
   (1, [("family_name", .bytes fooName), ("family_id", .nat 0x21)])]

def dupRegistry : List MsgType :=
  initialMsgTypes ++ [⟨0x20, fooName, none, none⟩, ⟨0x21, fooName, none, none⟩]

/-- One well-formed bootstrap response with a NUL-terminated name. -/
def oneResponse : List (Nat × List (String × Value)) :=
  [(1, [("family_name", .bytes (fooName ++ [0])), ("family_id", .nat 0x22)])]

def oneRegistry : List MsgType := initialMsgTypes ++ [⟨0x22, fooName, none, none⟩]
def nlctrlDesc : MsgType := ⟨0x10, nlctrlName, some ctrlAttr, some nlctrlCommands⟩

/-- One bootstrap response whose discovered id collides with nlctrl. -/
def clashResponses : List (Nat × List (String × Value)) :=
  [(1, [("family_name", .bytes fooName), ("family_id", .nat 0x10)])]

def clashRegistry : List MsgType := [nlctrlDesc, ⟨0x10, fooName, none, none⟩]
def padResponses : List (Nat × List (String × Value)) :=
  [(1, [("family_name", .bytes (fooName ++ [0, 0])), ("family_id", .nat 0x23)])]

def padRegistry : List MsgType := [nlctrlDesc, ⟨0x23, fooName, none, none⟩]

theorem packLE_length (w v : Nat) : (packLE w v).length = w := by
  induction w generalizing v with
  | zero => rfl
  | succ w ih => simp [packLE, ih]

theorem unpackLE_packLE (w v : Nat) (h : v < 2 ^ (8 * w)) :
    unpackLE (packLE w v) = v := by
  induction w generalizing v with
  | zero =>
      have hv : v = 0 := by
        have h1 : v < 1 := by simpa using h
        omega
      simp [packLE, unpackLE, hv]
  | succ w ih =>
      have hpow : 2 ^ (8 * (w + 1)) = 2 ^ (8 * w) * 256 := by
        rw [Nat.mul_succ, pow_add]
        norm_num
      have hv : v / 256 < 2 ^ (8 * w) := by
        rw [Nat.div_lt_iff_lt_mul (by norm_num : (0 : Nat) < 256)]
        omega
      simp [packLE, unpackLE, ih _ hv]
      omega

theorem readLE_concat (pre mid tail : List Nat) (w : Nat) (h : mid.length = w) :
    readLE (pre ++ (mid ++ tail)) pre.length w = unpackLE mid := by
  rw [readLE, List.drop_left, ← h, List.take_left]

theorem readLE_at (a mid b : List Nat) (off w : Nat) (hoff : off = a.length)
    (hw : mid.length = w) : readLE (a ++ (mid ++ b)) off w = unpackLE mid := by
  subst hoff
  exact readLE_concat a mid b w hw

theorem readLE_packLE (w v : Nat) (h : v < 2 ^ (8 * w)) :
    readLE (packLE w v) 0 w = v := by
  have hl : (packLE w v).length ≤ w := le_of_eq (packLE_length w v)
  rw [readLE, List.drop_zero, List.take_of_length_le hl, unpackLE_packLE w v h]

/-- C5: for every fixed-width scalar codec and legal value, for the
raw-bytes codec on any byte string, and for the zero-size flag codec,
decoding the bytes produced by encoding the value yields the value
again, with the cursor ending exactly at the encoded bytes. -/
theorem fieldCodec_decode_encode :
    (∀ w v, v < 2 ^ (8 * w) →
      ∃ out, singlePack w [] v = some out ∧
        singleUnpack w (Iterator.ofBytes out) = .ok (v, ⟨out, w, w⟩)) ∧
    (∀ s : List Nat,
      stringUnpack (Iterator.ofBytes (stringPack [] s)) =
        .ok (s, ⟨s, s.length, s.length⟩)) ∧
    (packP 1 .emptyP .trueV = some [] ∧
      unpackP 1 .emptyP (Iterator.ofBytes []) = .ok (.trueV, Iterator.ofBytes [])) := by
  refine ⟨?_, ?_, ?_, ?_⟩
  · intro w v hv
    refine ⟨packLE w v, ?_, ?_⟩
    · simp [singlePack, hv]
    · have hl : (packLE w v).length = w := packLE_length w v
      simp [singleUnpack, Iterator.ofBytes, Iterator.Advance, Iterator.Remaining, hl,
        readLE_packLE w v hv]
  · intro s
    simp [stringUnpack, stringPack, Iterator.ofBytes, Iterator.Extract, Iterator.Remaining,
      List.take_of_length_le (le_refl s.length)]
  · rfl
  · rfl

/-- Witness for fieldCodec_decode_encode at width 4, value 0x01020304,
and the byte string [1, 2, 3]. -/
theorem fieldCodec_decode_encode_wit :
    (∃ out, singlePack 4 [] 0x01020304 = some out ∧
      singleUnpack 4 (Iterator.ofBytes out) = .ok (0x01020304, ⟨out, 4, 4⟩)) ∧
    stringUnpack (Iterator.ofBytes (stringPack [] [1, 2, 3])) =
      .ok ([1, 2, 3], ⟨[1, 2, 3], 3, 3⟩) :=
  ⟨fieldCodec_decode_encode.1 4 0x01020304 (by norm_num),
    fieldCodec_decode_encode.2.1 [1, 2, 3]⟩

/-- C1: Attribute encode writes the 4-byte header with length equal to 4
plus the payload length and the type tag, then the payload bytes, then
zero padding to the next 4-byte boundary; encoding type 3 with u32 value
0x01020304 produces exactly the 8-byte record with length field 8 and no
padding, and encoding type 6 with a 3-byte payload produces length field
7 and exactly 8 wire bytes with one padding byte. -/
theorem attr_pack_layout :
    (∀ fuel table acc atype nm sub v payload,
      lookupTag table atype = some (nm, sub) →
      packP fuel sub v = some payload →
      4 + payload.length < 2 ^ 16 → atype < 2 ^ 16 →
      ∃ pad, attrPack (fuel + 1) table acc atype v =
          some (acc ++ packLE 2 (4 + payload.length) ++ packLE 2 atype ++
            payload ++ List.replicate pad 0) ∧
        (4 + payload.length + pad) % 4 = 0 ∧ pad < 4) ∧
    (attrPack 2 [(3, ("ifindex", u32))] [] 3 (.nat 0x01020304) =
      some [8, 0, 3, 0, 4, 3, 2, 1]) ∧
    (attrPack 2 [(6, ("mac", stringC))] [] 6 (.bytes [0xAA, 0xBB, 0xCC]) =
      some [7, 0, 6, 0, 0xAA, 0xBB, 0xCC, 0] ∧
      [(7 : Nat), 0, 6, 0, 0xAA, 0xBB, 0xCC, 0].length = 8) := by
  refine ⟨?_, by rfl, by rfl, by rfl⟩
  intro fuel table acc atype nm sub v payload hlook hpack hlen htype
  refine ⟨(4 + payload.length + 3) / 4 * 4 - (4 + payload.length), ?_, ?_, ?_⟩
  · simp only [attrPack, hlook, hpack, packHH, if_pos (And.intro hlen htype)]
  · omega
  · omega

/-- Witness for attr_pack_layout: the general layout law applied to the
u32 codec at type 3 with value 0x01020304. -/
theorem attr_pack_layout_wit :
    ∃ pad, attrPack 2 [(3, ("ifindex", u32))] [] 3 (.nat 0x01020304) =
        some ([] ++ packLE 2 (4 + [4, 3, 2, 1].length) ++ packLE 2 3 ++
          [4, 3, 2, 1] ++ List.replicate pad 0) ∧
      (4 + [4, 3, 2, 1].length + pad) % 4 = 0 ∧ pad < 4 :=
  attr_pack_layout.1 1 [(3, ("ifindex", u32))] [] 3 "ifindex" u32
    (.nat 0x01020304) [4, 3, 2, 1] (by rfl) (by rfl) (by norm_num) (by norm_num)

theorem hdrBytes_length (L T F S P : Nat) : (hdrBytes L T F S P).length = 16 := by
  simp [hdrBytes, packLE_length]

theorem nlmsghdrUnpack_eval (D pre tail : List Nat) (L T F S P lim : Nat)
    (hD : D = pre ++ (hdrBytes L T F S P ++ tail))
    (hL : L < 2 ^ 32) (hT : T < 2 ^ 16) (hF : F < 2 ^ 16)
    (hS : S < 2 ^ 32) (hP : P < 2 ^ 32)
    (hlim1 : pre.length + 16 ≤ lim) (hlim2 : lim ≤ D.length) :
    nlmsghdrUnpack ⟨D, pre.length, lim⟩ =
      .ok (⟨L, T, F, S, P⟩, ⟨D, pre.length + 16, lim⟩) := by
  have h1 : readLE D pre.length 4 = L := by
    have hDa : D = pre ++
        (packLE 4 L ++ (packLE 2 T ++ (packLE 2 F ++ (packLE 4 S ++ (packLE 4 P ++ tail))))) := by
      simp [hD, hdrBytes, List.append_assoc]
    rw [hDa, readLE_at _ _ _ _ 4 rfl (packLE_length 4 L), unpackLE_packLE 4 L hL]
  have h2 : readLE D (pre.length + 4) 2 = T := by
    have hDa : D = (pre ++ packLE 4 L) ++
        (packLE 2 T ++ (packLE 2 F ++ (packLE 4 S ++ (packLE 4 P ++ tail)))) := by
      simp [hD, hdrBytes, List.append_assoc]
    have ho : pre.length + 4 = (pre ++ packLE 4 L).length := by
      simp [packLE_length]
    rw [hDa, ho, readLE_at _ _ _ _ 2 rfl (packLE_length 2 T), unpackLE_packLE 2 T hT]
  have h3 : readLE D (pre.length + 6) 2 = F := by
    have hDa : D = (pre ++ packLE 4 L ++ packLE 2 T) ++
        (packLE 2 F ++ (packLE 4 S ++ (packLE 4 P ++ tail))) := by
      simp [hD, hdrBytes, List.append_assoc]
    have ho : pre.length + 6 = (pre ++ packLE 4 L ++ packLE 2 T).length := by
      simp [packLE_length]
    rw [hDa, ho, readLE_at _ _ _ _ 2 rfl (packLE_length 2 F), unpackLE_packLE 2 F hF]
  have h4 : readLE D (pre.length + 8) 4 = S := by
    have hDa : D = (pre ++ packLE 4 L ++ packLE 2 T ++ packLE 2 F) ++
        (packLE 4 S ++ (packLE 4 P ++ tail)) := by
      simp [hD, hdrBytes, List.append_assoc]
    have ho : pre.length + 8 = (pre ++ packLE 4 L ++ packLE 2 T ++ packLE 2 F).length := by
      simp [packLE_length]
    rw [hDa, ho, readLE_at _ _ _ _ 4 rfl (packLE_length 4 S), unpackLE_packLE 4 S hS]
  have h5 : readLE D (pre.length + 12) 4 = P := by
    have hDa : D = (pre ++ packLE 4 L ++ packLE 2 T ++ packLE 2 F ++ packLE 4 S) ++
        (packLE 4 P ++ tail) := by
      simp [hD, hdrBytes, List.append_assoc]
    have ho : pre.length + 12 =
        (pre ++ packLE 4 L ++ packLE 2 T ++ packLE 2 F ++ packLE 4 S).length := by
      simp [packLE_length]
    rw [hDa, ho, readLE_at _ _ _ _ 4 rfl (packLE_length 4 P), unpackLE_packLE 4 P hP]
  have hbuf : pre.length + 16 ≤ D.length := le_trans hlim1 hlim2
  have hadv : 16 ≤ lim - pre.length := by omega
  simp only [nlmsghdrUnpack, Iterator.Advance, Iterator.Remaining, if_pos hbuf, if_pos hadv,
    h1, h2, h3, h4, h5]

/-- C2: the outer message header packed and unpacked by the transport is
exactly 16 bytes holding length (32-bit), type (16-bit), flags (16-bit),
sequence (32-bit), pid (32-bit) in that order: packing in-range fields
yields the 16-byte concatenation of those five little-endian fields,
unpacking reads the same five fields back in order, and a Send datagram
is that header followed by the payload. -/
theorem nlmsghdr_layout :
    (∀ L T F S P, L < 2 ^ 32 → T < 2 ^ 16 → F < 2 ^ 16 → S < 2 ^ 32 → P < 2 ^ 32 →
      nlmsghdrPack [] L T F S P = some (hdrBytes L T F S P) ∧
      (hdrBytes L T F S P).length = 16 ∧
      nlmsghdrUnpack (Iterator.ofBytes (hdrBytes L T F S P)) =
        .ok (⟨L, T, F, S, P⟩, ⟨hdrBytes L T F S P, 16, 16⟩)) ∧
    (∀ mt fs seq pid msg fi, flagInt fs = .ok fi →
      mt < 2 ^ 16 → fi < 2 ^ 16 → seq < 2 ^ 32 → pid < 2 ^ 32 →
      msg.length + 16 < 2 ^ 32 →
      netlinkSend mt fs seq pid msg =
        .ok (hdrBytes (msg.length + 16) mt fi seq pid ++ msg)) := by
  constructor
  · intro L T F S P hL hT hF hS hP
    refine ⟨?_, hdrBytes_length L T F S P, ?_⟩
    · have hc : L < 2 ^ 32 ∧ T < 2 ^ 16 ∧ F < 2 ^ 16 ∧ S < 2 ^ 32 ∧ P < 2 ^ 32 :=
        ⟨hL, hT, hF, hS, hP⟩
      simp only [nlmsghdrPack, if_pos hc]
      simp [hdrBytes]
    · have h := nlmsghdrUnpack_eval (hdrBytes L T F S P) [] [] L T F S P
        (hdrBytes L T F S P).length (by simp) hL hT hF hS hP
        (by simp [hdrBytes_length]) (le_refl _)
      simpa [Iterator.ofBytes, hdrBytes_length] using h
  · intro mt fs seq pid msg fi hfi hmt hfi16 hseq hpid hlen
    have hc : msg.length + 16 < 2 ^ 32 ∧ mt < 2 ^ 16 ∧ fi < 2 ^ 16 ∧
        seq < 2 ^ 32 ∧ pid < 2 ^ 32 := ⟨hlen, hmt, hfi16, hseq, hpid⟩
    simp only [netlinkSend, hfi, nlmsghdrPack, if_pos hc]
    simp [hdrBytes, List.append_assoc]

/-- Witness for nlmsghdr_layout at concrete field values and a Send of a
four-byte payload with the dump flags. -/
theorem nlmsghdr_layout_wit :
    (nlmsghdrPack [] 20 22 0x301 7 9 = some (hdrBytes 20 22 0x301 7 9) ∧
      (hdrBytes 20 22 0x301 7 9).length = 16 ∧
      nlmsghdrUnpack (Iterator.ofBytes (hdrBytes 20 22 0x301 7 9)) =
        .ok (⟨20, 22, 0x301, 7, 9⟩, ⟨hdrBytes 20 22 0x301 7 9, 16, 16⟩)) ∧
    netlinkSend 22 ["dump"] 7 9 [1, 2, 3, 4] =
      .ok (hdrBytes 20 22 0x301 7 9 ++ [1, 2, 3, 4]) :=
  ⟨nlmsghdr_layout.1 20 22 0x301 7 9 (by norm_num) (by norm_num) (by norm_num)
      (by norm_num) (by norm_num),
    nlmsghdr_layout.2 22 ["dump"] 7 9 [1, 2, 3, 4] 0x301 (by rfl) (by norm_num)
      (by norm_num) (by norm_num) (by norm_num) (by norm_num)⟩

theorem mkMsg_length (ty fl seq pid : Nat) (payload : List Nat) :
    (mkMsg ty fl seq pid payload).length = 16 + payload.length := by
  simp [mkMsg, hdrBytes_length]

set_option maxHeartbeats 1600000 in
theorem recvInner_step (fuel : Nat) (D A B pay : List Nat) (ty fl s p : Nat)
    (rest : List (List Nat)) (acc : List (Nat × List Nat)) (nread : Nat)
    (hD : D = A ++ (mkMsg ty fl s p pay ++ B))
    (hty : ty < 2 ^ 16) (hfl : fl < 2 ^ 16) (hs : s < 2 ^ 32) (hp : p < 2 ^ 32)
    (hlen : pay.length + 16 < 2 ^ 32) (hty3 : ty ≠ 3) :
    recvInner (fuel + 1) ⟨D, A.length, D.length⟩ rest acc nread =
      if fl &&& 2 = 0 then .ok (acc ++ [(ty, pay)], nread)
      else recvInner fuel ⟨D, A.length + 16 + pay.length, D.length⟩ rest
        (acc ++ [(ty, pay)]) nread := by
  have hDlen : D.length = A.length + (16 + pay.length) + B.length := by
    simp [hD, mkMsg_length]
    omega
  have hAtEnd : (⟨D, A.length, D.length⟩ : Iterator).AtEnd = false := by
    simp [Iterator.AtEnd, Iterator.Remaining]
    omega
  have hhdr := nlmsghdrUnpack_eval D A (pay ++ B) (pay.length + 16) ty fl s p D.length
    (by simp [hD, mkMsg, hdrBytes, List.append_assoc]) hlen hty hfl hs hp
    (by omega) (le_refl _)
  have hsub : pay.length + 16 - 16 = pay.length := by omega
  have hext : (⟨D, A.length + 16, D.length⟩ : Iterator).ExtractIterator pay.length =
      .ok (⟨D, A.length + 16, A.length + 16 + pay.length⟩,
        ⟨D, A.length + 16 + pay.length, D.length⟩) := by
    simp [Iterator.ExtractIterator, Iterator.Remaining]
    omega
  have hdrop : D.drop (A.length + 16) = pay ++ B := by
    have ho : A.length + 16 = (A ++ hdrBytes (pay.length + 16) ty fl s p).length := by
      simp [hdrBytes_length]
    have hDa : D = (A ++ hdrBytes (pay.length + 16) ty fl s p) ++ (pay ++ B) := by
      simp [hD, mkMsg, List.append_assoc]
    rw [hDa, ho, List.drop_left]
  have hwin : (⟨D, A.length + 16, A.length + 16 + pay.length⟩ : Iterator).window = pay := by
    have hrem : A.length + 16 + pay.length - (A.length + 16) = pay.length := by omega
    rw [Iterator.window]
    simp only [Iterator.Remaining]
    rw [hrem, hdrop, List.take_left]
  conv_lhs => rw [recvInner]
  rw [hAtEnd]
  simp only [Bool.false_eq_true, if_false]
  rw [hhdr]
  simp only [hsub, if_neg hty3, hext, hwin]

set_option maxHeartbeats 1600000 in
theorem recvInner_done (fuel : Nat) (D A tail : List Nat) (L fl s p : Nat)
    (rest : List (List Nat)) (acc : List (Nat × List Nat)) (nread : Nat)
    (hD : D = A ++ (hdrBytes L 3 fl s p ++ tail))
    (hL : L < 2 ^ 32) (hfl : fl < 2 ^ 16) (hs : s < 2 ^ 32) (hp : p < 2 ^ 32) :
    recvInner (fuel + 1) ⟨D, A.length, D.length⟩ rest acc nread = .ok (acc, nread) := by
  have hDlen : D.length = A.length + 16 + tail.length := by
    simp [hD, hdrBytes_length]
    omega
  have hAtEnd : (⟨D, A.length, D.length⟩ : Iterator).AtEnd = false := by
    simp [Iterator.AtEnd, Iterator.Remaining]
    omega
  have hhdr := nlmsghdrUnpack_eval D A tail L 3 fl s p D.length hD hL
    (by norm_num) hfl hs hp (by omega) (le_refl _)
  conv_lhs => rw [recvInner]
  rw [hAtEnd]
  simp only [Bool.false_eq_true, if_false]
  rw [hhdr]
  simp

/-- C3: Recv frames header-delimited sub-messages in order.  A type 3
sub-message ends the sequence and the rest of the datagram is discarded;
otherwise the (type, payload) pair is yielded and, when the multi-part
flag is clear, the sequence ends right after that single yield.  One
datagram holding two multi-part non-terminal sub-messages followed by a
type 3 header yields exactly those two messages and stops having read one
datagram, whatever follows; a single non-multipart message yields exactly
one message and stops without reading another datagram. -/
theorem recv_framing :
    (∀ fuel t1 fl1 s1 p1 t2 fl2 s2 p2 L3 fl3 s3 p3
        (pay1 pay2 tail : List Nat) (rest : List (List Nat)),
      t1 < 2 ^ 16 → fl1 < 2 ^ 16 → s1 < 2 ^ 32 → p1 < 2 ^ 32 →
      pay1.length + 16 < 2 ^ 32 → t1 ≠ 3 → fl1 &&& 2 ≠ 0 →
      t2 < 2 ^ 16 → fl2 < 2 ^ 16 → s2 < 2 ^ 32 → p2 < 2 ^ 32 →
      pay2.length + 16 < 2 ^ 32 → t2 ≠ 3 → fl2 &&& 2 ≠ 0 →
      L3 < 2 ^ 32 → fl3 < 2 ^ 16 → s3 < 2 ^ 32 → p3 < 2 ^ 32 →
      recvOuter (fuel + 4)
        ((mkMsg t1 fl1 s1 p1 pay1 ++ (mkMsg t2 fl2 s2 p2 pay2 ++
          (hdrBytes L3 3 fl3 s3 p3 ++ tail))) :: rest) [] 0 =
        .ok ([(t1, pay1), (t2, pay2)], 1)) ∧
    (∀ fuel t fl s p (pay tail : List Nat) (rest : List (List Nat)),
      t < 2 ^ 16 → fl < 2 ^ 16 → s < 2 ^ 32 → p < 2 ^ 32 →
      pay.length + 16 < 2 ^ 32 → t ≠ 3 → fl &&& 2 = 0 →
      recvOuter (fuel + 2) ((mkMsg t fl s p pay ++ tail) :: rest) [] 0 =
        .ok ([(t, pay)], 1)) := by
  constructor
  · intro fuel t1 fl1 s1 p1 t2 fl2 s2 p2 L3 fl3 s3 p3 pay1 pay2 tail rest
      ht1 hf1 hs1 hp1 hl1 ht13 hm1 ht2 hf2 hs2 hp2 hl2 ht23 hm2 hL3 hf3 hs3 hp3
    have h0 : recvOuter (fuel + 4)
        ((mkMsg t1 fl1 s1 p1 pay1 ++ (mkMsg t2 fl2 s2 p2 pay2 ++
          (hdrBytes L3 3 fl3 s3 p3 ++ tail))) :: rest) [] 0 =
        recvInner (fuel + 3)
          (Iterator.ofBytes (mkMsg t1 fl1 s1 p1 pay1 ++ (mkMsg t2 fl2 s2 p2 pay2 ++
            (hdrBytes L3 3 fl3 s3 p3 ++ tail)))) rest [] 1 := rfl
    rw [h0, Iterator.ofBytes]
    have step1 := recvInner_step (fuel + 2)
      (mkMsg t1 fl1 s1 p1 pay1 ++ (mkMsg t2 fl2 s2 p2 pay2 ++
        (hdrBytes L3 3 fl3 s3 p3 ++ tail)))
      [] (mkMsg t2 fl2 s2 p2 pay2 ++ (hdrBytes L3 3 fl3 s3 p3 ++ tail))
      pay1 t1 fl1 s1 p1 rest [] 1 (by simp) ht1 hf1 hs1 hp1 hl1 ht13
    simp only [List.length_nil, Nat.zero_add, List.nil_append] at step1
    rw [step1, if_neg hm1]
    have step2 := recvInner_step (fuel + 1)
      (mkMsg t1 fl1 s1 p1 pay1 ++ (mkMsg t2 fl2 s2 p2 pay2 ++
        (hdrBytes L3 3 fl3 s3 p3 ++ tail)))
      (mkMsg t1 fl1 s1 p1 pay1) (hdrBytes L3 3 fl3 s3 p3 ++ tail)
      pay2 t2 fl2 s2 p2 rest [(t1, pay1)] 1 (by simp [List.append_assoc])
      ht2 hf2 hs2 hp2 hl2 ht23
    simp only [mkMsg_length] at step2
    rw [step2, if_neg hm2]
    have hoo : 16 + pay1.length + 16 + pay2.length =
        (mkMsg t1 fl1 s1 p1 pay1 ++ mkMsg t2 fl2 s2 p2 pay2).length := by
      simp [mkMsg_length]
      omega
    rw [hoo]
    have hdone := recvInner_done fuel
      (mkMsg t1 fl1 s1 p1 pay1 ++ (mkMsg t2 fl2 s2 p2 pay2 ++
        (hdrBytes L3 3 fl3 s3 p3 ++ tail)))
      (mkMsg t1 fl1 s1 p1 pay1 ++ mkMsg t2 fl2 s2 p2 pay2) tail
      L3 fl3 s3 p3 rest [(t1, pay1), (t2, pay2)] 1 (by simp [List.append_assoc])
      hL3 hf3 hs3 hp3
    rw [show [(t1, pay1)] ++ [(t2, pay2)] = [(t1, pay1), (t2, pay2)] from rfl]
    exact hdone
  · intro fuel t fl s p pay tail rest ht hf hs hp hl ht3 hm
    have h0 : recvOuter (fuel + 2) ((mkMsg t fl s p pay ++ tail) :: rest) [] 0 =
        recvInner (fuel + 1) (Iterator.ofBytes (mkMsg t fl s p pay ++ tail)) rest [] 1 := rfl
    rw [h0, Iterator.ofBytes]
    have step1 := recvInner_step fuel (mkMsg t fl s p pay ++ tail) [] tail
      pay t fl s p rest [] 1 (by simp) ht hf hs hp hl ht3
    simp only [List.length_nil, Nat.zero_add, List.nil_append] at step1
    rw [step1, if_pos hm]

/-- Witness for recv_framing at concrete messages: two multi-part
messages of types 20 and 21 followed by a done header with trailing
garbage, and a single non-multipart type 20 message. -/
theorem recv_framing_wit :
    recvOuter 9 ((mkMsg 20 2 0 0 [7] ++ (mkMsg 21 2 0 0 [8, 9] ++
        (hdrBytes 16 3 0 0 0 ++ [5, 5]))) :: [[1]]) [] 0 =
      .ok ([(20, [7]), (21, [8, 9])], 1) ∧
    recvOuter 7 ((mkMsg 20 0 0 0 [7] ++ [9]) :: [[1]]) [] 0 =
      .ok ([(20, [7])], 1) :=
  ⟨recv_framing.1 5 20 2 0 0 21 2 0 0 16 0 0 0 [7] [8, 9] [5, 5] [[1]]
      (by norm_num) (by norm_num) (by norm_num) (by norm_num) (by norm_num)
      (by norm_num) (by norm_num) (by norm_num) (by norm_num) (by norm_num)
      (by norm_num) (by norm_num) (by norm_num) (by norm_num) (by norm_num)
      (by norm_num) (by norm_num) (by norm_num),
    recv_framing.2 5 20 0 0 0 [7] [9] [[1]]
      (by norm_num) (by norm_num) (by norm_num) (by norm_num) (by norm_num)
      (by norm_num) (by norm_num)⟩

theorem Pres.rfl (it : Iterator) : Pres it it :=
  ⟨by rfl, by rfl, le_refl _, fun h => h⟩

theorem Pres.trans {a b c : Iterator} (h1 : Pres a b) (h2 : Pres b c) : Pres a c := by
  obtain ⟨d1, l1, o1, w1⟩ := h1
  obtain ⟨d2, l2, o2, w2⟩ := h2
  exact ⟨by rw [d2, d1], by rw [l2, l1], le_trans o1 o2, fun h => by
    have := w2 (by omega)
    omega⟩

theorem advance_inv (it : Iterator) (n : Nat) (it' : Iterator)
    (h : it.Advance n = .ok it') :
    it' = { it with offset := it.offset + n } ∧ n ≤ it.Remaining := by
  unfold Iterator.Advance at h
  split at h
  · injection h with h
    exact ⟨h.symm, by assumption⟩
  · cases h

theorem advance_pres (it : Iterator) (n : Nat) (it' : Iterator)
    (h : it.Advance n = .ok it') : Pres it it' := by
  obtain ⟨rfl, hn⟩ := advance_inv it n it' h
  simp only [Iterator.Remaining] at hn
  refine ⟨by rfl, by rfl, ?_, fun hw => ?_⟩
  · show it.offset ≤ it.offset + n
    omega
  · show it.offset + n ≤ it.length
    omega

theorem extractIterator_inv (it : Iterator) (n : Nat) (subIt it2 : Iterator)
    (h : it.ExtractIterator n = .ok (subIt, it2)) :
    subIt = ⟨it.data, it.offset, it.offset + n⟩ ∧
      it2 = { it with offset := it.offset + n } ∧ n ≤ it.Remaining := by
  unfold Iterator.ExtractIterator at h
  split at h
  · injection h with h
    injection h with h1 h2
    exact ⟨h1.symm, h2.symm, by assumption⟩
  · cases h

theorem unpackHH_inv (it : Iterator) (alen atype : Nat) (it1 : Iterator)
    (h : unpackHH it = .ok ((alen, atype), it1)) :
    alen = readLE it.data it.offset 2 ∧ atype = readLE it.data (it.offset + 2) 2 ∧
      it1 = { it with offset := it.offset + 4 } ∧ 4 ≤ it.Remaining := by
  unfold unpackHH at h
  split at h
  · cases hadv : it.Advance 4 with
    | error e => rw [hadv] at h; cases h
    | ok itx =>
        rw [hadv] at h
        obtain ⟨hx, hn⟩ := advance_inv it 4 itx hadv
        injection h with h
        injection h with h1 h2
        injection h1 with ha hb
        exact ⟨ha.symm, hb.symm, by rw [← h2, hx], hn⟩
  · cases h

theorem extract_inv (it : Iterator) (n : Nat) (s : List Nat) (it' : Iterator)
    (h : it.Extract n = .ok (s, it')) :
    s = (it.data.drop it.offset).take n ∧
      it' = { it with offset := it.offset + n } ∧ n ≤ it.Remaining := by
  unfold Iterator.Extract at h
  split at h
  · injection h with h
    injection h with h1 h2
    exact ⟨h1.symm, h2.symm, by assumption⟩
  · cases h

theorem extractIterator_parent_pres (it : Iterator) (n : Nat) (subIt it2 : Iterator)
    (h : it.ExtractIterator n = .ok (subIt, it2)) : Pres it it2 := by
  obtain ⟨hsub, rfl, hn⟩ := extractIterator_inv it n subIt it2 h
  simp only [Iterator.Remaining] at hn
  refine ⟨by rfl, by rfl, ?_, fun hw => ?_⟩
  · show it.offset ≤ it.offset + n
    omega
  · show it.offset + n ≤ it.length
    omega

theorem singleUnpack_pres (w : Nat) (it : Iterator) (v : Nat) (it' : Iterator)
    (h : singleUnpack w it = .ok (v, it')) : Pres it it' := by
  unfold singleUnpack at h
  split at h
  · cases hadv : it.Advance w with
    | error e => rw [hadv] at h; cases h
    | ok itx =>
        rw [hadv] at h
        injection h with h
        injection h with h1 h2
        rw [← h2]
        exact advance_pres it w itx hadv
  · cases h

theorem stringUnpack_pres (it : Iterator) (s : List Nat) (it' : Iterator)
    (h : stringUnpack it = .ok (s, it')) : Pres it it' := by
  unfold stringUnpack at h
  obtain ⟨hs, rfl, hn⟩ := extract_inv it it.Remaining s it' h
  simp only [Iterator.Remaining] at hn
  refine ⟨by rfl, by rfl, ?_, fun hw => ?_⟩
  · show it.offset ≤ it.offset + it.Remaining
    omega
  · show it.offset + it.Remaining ≤ it.length
    simp only [Iterator.Remaining]
    omega

theorem unpackHH_pres (it : Iterator) (alen atype : Nat) (it1 : Iterator)
    (h : unpackHH it = .ok ((alen, atype), it1)) : Pres it it1 := by
  obtain ⟨ha, hb, rfl, hn⟩ := unpackHH_inv it alen atype it1 h
  simp only [Iterator.Remaining] at hn
  refine ⟨by rfl, by rfl, ?_, fun hw => ?_⟩
  · show it.offset ≤ it.offset + 4
    omega
  · show it.offset + 4 ≤ it.length
    omega

theorem structUnpack_pres (fields : List (String × Nat)) (it : Iterator)
    (kvs : List (String × Value)) (it' : Iterator)
    (h : structUnpack fields it = .ok (kvs, it')) : Pres it it' := by
  unfold structUnpack at h
  split at h
  · cases hadv : it.Advance (structSizeOf fields) with
    | error e => rw [hadv] at h; cases h
    | ok itx =>
        rw [hadv] at h
        injection h with h
        injection h with h1 h2
        rw [← h2]
        exact advance_pres it (structSizeOf fields) itx hadv
  · cases h

theorem unpack_pres (fuel : Nat) :
    (∀ p it v it', unpackP fuel p it = .ok (v, it') → Pres it it') ∧
    (∀ table it kvs it', unpackAttrOne fuel table it = .ok (kvs, it') → Pres it it') ∧
    (∀ table acc it kvs it',
      unpackAttrsGo fuel table acc it = .ok (kvs, it') → Pres it it') ∧
    (∀ child acc it vs it',
      unpackArrayGo fuel child acc it = .ok (vs, it') → Pres it it') := by
  induction fuel with
  | zero =>
      refine ⟨?_, ?_, ?_, ?_⟩
      · intro p it v it' h
        simp [unpackP] at h
      · intro table it kvs it' h
        simp [unpackAttrOne] at h
      · intro table acc it kvs it' h
        simp [unpackAttrsGo] at h
      · intro child acc it vs it' h
        simp [unpackArrayGo] at h
  | succ fuel ih =>
      refine ⟨?_, ?_, ?_, ?_⟩
      · intro p it v it' h
        cases p with
        | single w =>
            simp only [unpackP] at h
            cases hs : singleUnpack w it with
            | error e => rw [hs] at h; cases h
            | ok r =>
                rw [hs] at h
                injection h with h
                injection h with h1 h2
                rw [← h2]
                exact singleUnpack_pres w it r.1 r.2 (by rw [hs])
        | stringP =>
            simp only [unpackP] at h
            cases hs : stringUnpack it with
            | error e => rw [hs] at h; cases h
            | ok r =>
                rw [hs] at h
                injection h with h
                injection h with h1 h2
                rw [← h2]
                exact stringUnpack_pres it r.1 r.2 (by rw [hs])
        | emptyP =>
            simp only [unpackP] at h
            injection h with h
            injection h with h1 h2
            rw [← h2]
            exact Pres.rfl it
        | structF fields =>
            simp only [unpackP] at h
            cases hs : structUnpack fields it with
            | error e => rw [hs] at h; cases h
            | ok r =>
                rw [hs] at h
                injection h with h
                injection h with h1 h2
                rw [← h2]
                exact structUnpack_pres fields it r.1 r.2 (by rw [hs])
        | attrsP table =>
            simp only [unpackP] at h
            cases hs : unpackAttrsGo fuel table [] it with
            | error e => rw [hs] at h; cases h
            | ok r =>
                rw [hs] at h
                injection h with h
                injection h with h1 h2
                rw [← h2]
                exact ih.2.2.1 table [] it r.1 r.2 (by rw [hs])
        | arrayP child =>
            simp only [unpackP] at h
            cases hs : unpackArrayGo fuel child [] it with
            | error e => rw [hs] at h; cases h
            | ok r =>
                rw [hs] at h
                injection h with h
                injection h with h1 h2
                rw [← h2]
                exact ih.2.2.2 child [] it r.1 r.2 (by rw [hs])
      · intro table it kvs it' h
        simp only [unpackAttrOne] at h
        split at h
        · cases h
        rename_i r alen atype it1 hHH
        split at h
        · cases h
        rename_i ns nm sub hlook
        split at h
        · cases h
        rename_i r2 subIt it2 hext
        split at h
        · cases h
        rename_i r3 v subIt' hsub
        split at h
        · split at h
          · rename_i it3 hadv
            injection h with h
            injection h with h1 h2
            rw [← h2]
            exact Pres.trans (unpackHH_pres it alen atype it1 hHH)
              (Pres.trans
                (extractIterator_parent_pres it1 (alen - 4) subIt it2 hext)
                (advance_pres it2 _ it3 hadv))
          · cases h
        · cases h
      · intro table acc it kvs it' h
        simp only [unpackAttrsGo] at h
        split at h
        · injection h with h
          injection h with h1 h2
          rw [← h2]
          exact Pres.rfl it
        · split at h
          · cases h
          rename_i r kvs1 itx hone
          exact Pres.trans (ih.2.1 table it kvs1 itx hone)
            (ih.2.2.1 table (mergeInto acc kvs1) itx kvs it' h)
      · intro child acc it vs it' h
        simp only [unpackArrayGo] at h
        split at h
        · injection h with h
          injection h with h1 h2
          rw [← h2]
          exact Pres.rfl it
        · split at h
          · cases h
          rename_i r alen aidx it1 hHH
          split at h
          · cases h
          rename_i r2 subIt it2 hext
          split at h
          · cases h
          rename_i r3 v subIt' hsub
          split at h
          · exact Pres.trans (unpackHH_pres it alen aidx it1 hHH)
              (Pres.trans
                (extractIterator_parent_pres it1 (alen - 4) subIt it2 hext)
                (ih.2.2.2 child (acc ++ [v]) it2 vs it' h))
          · cases h

/-- C4: when Attribute.Unpack succeeds, the sub-codec ran on the
sub-cursor bounded to length − 4 bytes and consumed it exactly, its
final offset reaching the bound; a truncated sub-value (declared length
shorter than the sub-codec needs) or an over-long one (sub-codec leaves
bytes unconsumed) makes the decode fail, for the attribute codec and the
array codec alike. -/
theorem attr_decode_exact :
    (∀ fuel table it kvs it',
      unpackAttrOne (fuel + 1) table it = .ok (kvs, it') →
      ∃ nm sub v subIt',
        lookupTag table (readLE it.data (it.offset + 2) 2) = some (nm, sub) ∧
        kvs = [(nm, v)] ∧
        unpackP fuel sub
          ⟨it.data, it.offset + 4,
            it.offset + 4 + (readLE it.data it.offset 2 - 4)⟩ = .ok (v, subIt') ∧
        subIt'.offset = it.offset + 4 + (readLE it.data it.offset 2 - 4)) ∧
    (unpackAttrOne 3 [(3, ("ifindex", u32))]
        (Iterator.ofBytes [6, 0, 3, 0, 9, 9]) = .error .structErr) ∧
    (unpackAttrOne 3 [(3, ("ifindex", u32))]
        (Iterator.ofBytes [10, 0, 3, 0, 1, 0, 0, 0, 5, 5]) =
      .error (.remainingBytes 2)) ∧
    (unpackP 3 (.arrayP u32) (Iterator.ofBytes [6, 0, 0, 0, 9, 9]) =
      .error .structErr) ∧
    (unpackP 3 (.arrayP u32) (Iterator.ofBytes [10, 0, 0, 0, 1, 0, 0, 0, 5, 5]) =
      .error (.remainingBytes 2)) := by
  refine ⟨?_, by rfl, by rfl, by rfl, by rfl⟩
  intro fuel table it kvs it' h
  simp only [unpackAttrOne] at h
  split at h
  · cases h
  rename_i r alen atype it1 hHH
  obtain ⟨ha, hb, hit1, hrem⟩ := unpackHH_inv it alen atype it1 hHH
  split at h
  · cases h
  rename_i ns nm sub hlook
  split at h
  · cases h
  rename_i r2 subIt it2 hext
  obtain ⟨hsubIt, hit2, hn⟩ := extractIterator_inv it1 (alen - 4) subIt it2 hext
  split at h
  · cases h
  rename_i r3 v subIt' hsub
  split at h
  · rename_i hend
    split at h
    · rename_i it3 hadv
      injection h with h
      injection h with h1 h2
      obtain ⟨hd, hl, ho, hw⟩ := (unpack_pres fuel).1 sub subIt v subIt' hsub
      subst hit1
      subst hsubIt
      simp only at hsub hl ho hw
      simp only [Iterator.AtEnd, Iterator.Remaining, decide_eq_true_eq] at hend
      refine ⟨nm, sub, v, subIt', ?_, h1.symm, ?_, ?_⟩
      · rw [← hb]
        exact hlook
      · rw [← ha]
        exact hsub
      · rw [← ha]
        omega
    · cases h
  · cases h

/-- Witness for attr_decode_exact: the general consumption law applied
to a well-formed u32 attribute record. -/
theorem attr_decode_exact_wit :
    ∃ nm sub v subIt',
      lookupTag [(3, ("ifindex", u32))]
        (readLE [8, 0, 3, 0, 4, 3, 2, 1] (0 + 2) 2) = some (nm, sub) ∧
      [("ifindex", Value.nat 0x01020304)] = [(nm, v)] ∧
      unpackP 2 sub
        ⟨[8, 0, 3, 0, 4, 3, 2, 1], 0 + 4,
          0 + 4 + (readLE [8, 0, 3, 0, 4, 3, 2, 1] 0 2 - 4)⟩ = .ok (v, subIt') ∧
      subIt'.offset = 0 + 4 + (readLE [8, 0, 3, 0, 4, 3, 2, 1] 0 2 - 4) :=
  attr_decode_exact.1 2 [(3, ("ifindex", u32))]
    (Iterator.ofBytes [8, 0, 3, 0, 4, 3, 2, 1])
    [("ifindex", Value.nat 0x01020304)] ⟨[8, 0, 3, 0, 4, 3, 2, 1], 8, 8⟩ (by rfl)

/-- C6: Attribute.Unpack on a TLV unit whose 16-bit type tag is absent
from the schema table fails with UnknownAttribute carrying that type and
the declared length, aborting the decode. -/
theorem attr_unknown_tag (fuel : Nat) (table : AttrTable) (it : Iterator)
    (alen atype : Nat) (it1 : Iterator)
    (hHH : unpackHH it = .ok ((alen, atype), it1))
    (hlook : lookupTag table atype = none) :
    unpackAttrOne (fuel + 1) table it = .error (.unknownAttribute atype alen) := by
  simp only [unpackAttrOne, hHH, hlook]

/-- Witness for attr_unknown_tag: tag 2 is absent from a schema holding
only tag 1, so decoding a type 2 record of declared length 8 fails with
UnknownAttribute 2 8. -/
theorem attr_unknown_tag_wit :
    unpackAttrOne 3 [(1, ("id", u32))] (Iterator.ofBytes [8, 0, 2, 0, 1, 2, 3, 4]) =
      .error (.unknownAttribute 2 8) :=
  attr_unknown_tag 2 [(1, ("id", u32))] (Iterator.ofBytes [8, 0, 2, 0, 1, 2, 3, 4])
    8 2 ⟨[8, 0, 2, 0, 1, 2, 3, 4], 4, 8⟩ (by rfl) (by rfl)

/-- C7: Attributes.Unpack repeats single-attribute decode until its
bounded cursor is exhausted, so on success the region is consumed
entirely; results are merged into one mapping where a later duplicate
tag overwrites the earlier binding (last-wins, no duplicate detection),
as the concrete region holding tag 1 = 5, tag 2 = 9, then tag 1 = 7
again shows: the mapping keeps x = 7 alongside y = 9. -/
theorem attrs_merge_lastwins :
    (∀ fuel table acc it kvs it',
      unpackAttrsGo fuel table acc it = .ok (kvs, it') → it'.AtEnd) ∧
    (unpackP 9 (.attrsP [(1, ("x", u32)), (2, ("y", u16))])
        (Iterator.ofBytes
          [8, 0, 1, 0, 5, 0, 0, 0,
           6, 0, 2, 0, 9, 0, 0, 0,
           8, 0, 1, 0, 7, 0, 0, 0]) =
      .ok (.dict [("x", .nat 7), ("y", .nat 9)],
        ⟨[8, 0, 1, 0, 5, 0, 0, 0,
          6, 0, 2, 0, 9, 0, 0, 0,
          8, 0, 1, 0, 7, 0, 0, 0], 24, 24⟩)) := by
  constructor
  · intro fuel
    induction fuel with
    | zero =>
        intro table acc it kvs it' h
        simp [unpackAttrsGo] at h
    | succ fuel ih =>
        intro table acc it kvs it' h
        simp only [unpackAttrsGo] at h
        split at h
        · rename_i hend
          injection h with h
          injection h with h1 h2
          rw [← h2]
          exact hend
        · split at h
          · cases h
          rename_i r kvs1 itx hone
          exact ih table (mergeInto acc kvs1) itx kvs it' h
  · rfl

/-- Witness for attrs_merge_lastwins: the exhaustion law applied to the
same concrete attribute region. -/
theorem attrs_merge_lastwins_wit :
    Iterator.AtEnd
      ⟨[8, 0, 1, 0, 5, 0, 0, 0,
        6, 0, 2, 0, 9, 0, 0, 0,
        8, 0, 1, 0, 7, 0, 0, 0], 24, 24⟩ :=
  attrs_merge_lastwins.1 8 [(1, ("x", u32)), (2, ("y", u16))] []
    (Iterator.ofBytes
      [8, 0, 1, 0, 5, 0, 0, 0,
       6, 0, 2, 0, 9, 0, 0, 0,
       8, 0, 1, 0, 7, 0, 0, 0])
    [("x", .nat 7), ("y", .nat 9)]
    ⟨[8, 0, 1, 0, 5, 0, 0, 0,
      6, 0, 2, 0, 9, 0, 0, 0,
      8, 0, 1, 0, 7, 0, 0, 0], 24, 24⟩ (by rfl)

theorem byName_append (xs ys : List MsgType) (n : List Nat) :
    byName (xs ++ ys) n =
      match byName ys n with
      | some r => some r
      | none => byName xs n := by
  induction xs with
  | nil => cases h : byName ys n <;> simp [byName, h]
  | cons m xs ih =>
      simp only [List.cons_append]
      rw [byName, ih]
      cases h1 : byName ys n <;> cases h2 : byName xs n <;> simp [byName, h1, h2]

theorem byName_eq_some (l : List MsgType) (n : List Nat) (d : MsgType)
    (h : byName l n = some d) : d ∈ l ∧ d.name = n := by
  induction l with
  | nil => cases h
  | cons m rest ih =>
      simp only [byName] at h
      cases h2 : byName rest n with
      | some r =>
          rw [h2] at h
          injection h with h
          subst h
          exact ⟨.tail _ (ih h2).1, (ih h2).2⟩
      | none =>
          rw [h2] at h
          by_cases hm : m.name = n
          · rw [if_pos hm] at h
            injection h with h
            subst h
            exact ⟨.head _, hm⟩
          · rw [if_neg hm] at h
            cases h

theorem byName_ne_none (l : List MsgType) (d : MsgType) (h : d ∈ l) :
    byName l d.name ≠ none := by
  induction l with
  | nil => cases h
  | cons m rest ih =>
      simp only [byName]
      rcases List.mem_cons.mp h with rfl | hd
      · cases h2 : byName rest d.name <;> simp [h2]
      · cases h2 : byName rest d.name with
        | some r => simp
        | none => exact absurd h2 (ih hd)

theorem byId_eq_some (l : List MsgType) (i : Nat) (d : MsgType)
    (h : byId l i = some d) : d ∈ l ∧ d.id = i := by
  induction l with
  | nil => cases h
  | cons m rest ih =>
      simp only [byId] at h
      cases h2 : byId rest i with
      | some r =>
          rw [h2] at h
          injection h with h
          subst h
          exact ⟨.tail _ (ih h2).1, (ih h2).2⟩
      | none =>
          rw [h2] at h
          by_cases hm : m.id = i
          · rw [if_pos hm] at h
            injection h with h
            subst h
            exact ⟨.head _, hm⟩
          · rw [if_neg hm] at h
            cases h

theorem byId_none (l : List MsgType) (i : Nat) (h : ∀ e ∈ l, e.id ≠ i) :
    byId l i = none := by
  induction l with
  | nil => rfl
  | cons m rest ih =>
      simp only [byId, ih (fun e he => h e (.tail _ he))]
      simp [h m (.head _)]

theorem byName_none (l : List MsgType) (n : List Nat) (h : ∀ e ∈ l, e.name ≠ n) :
    byName l n = none := by
  induction l with
  | nil => rfl
  | cons m rest ih =>
      simp only [byName, ih (fun e he => h e (.tail _ he))]
      simp [h m (.head _)]

theorem bootstrapLoop_char (rs : List (Nat × List (String × Value))) :
    ∀ stale st st', bootstrapLoop stale st rs = .ok st' →
    ∃ Δ, st' = st ++ Δ ∧
      (∀ d ∈ Δ, byName stale d.name = none ∧
        ∃ r, r ∈ rs ∧ respName r.2 = .ok d.name ∧ respId r.2 = .ok d.id) ∧
      (∀ r, r ∈ rs → ∃ nc cs nf n i,
        byName stale nlctrlName = some nc ∧ nc.commands = some cs ∧
        lookupStrNat cs ("newfamily") = some nf ∧ r.1 = nf ∧
        respName r.2 = .ok n ∧ respId r.2 = .ok i ∧
        ((∃ e, byName stale n = some e ∧ e.id = i) ∨
          (byName stale n = none ∧ ∃ d, d ∈ Δ ∧ d.name = n ∧ d.id = i))) := by
  induction rs with
  | nil =>
      intro stale st st' h
      injection h with h
      exact ⟨[], by simp [h], by simp, by simp⟩
  | cons r rest ih =>
      intro stale st st' h
      obtain ⟨cmd, attrs⟩ := r
      simp only [bootstrapLoop] at h
      split at h
      · cases h
      rename_i nc hnc
      split at h
      · cases h
      rename_i cs hcs
      split at h
      · cases h
      rename_i nf hnf
      split at h
      case isFalse => cases h
      rename_i hcmd
      split at h
      case h_1 e heq => cases h
      rename_i fname hfname
      split at h
      case h_1 e heq => cases h
      rename_i fid hfid
      split at h
      · rename_i ex hex
        split at h
        case isFalse => cases h
        rename_i heqid
        obtain ⟨Δ, hst, hΔ, hresp⟩ := ih stale st st' h
        refine ⟨Δ, hst, ?_, ?_⟩
        · intro d hd
          obtain ⟨h1, r', hr', hn', hi'⟩ := hΔ d hd
          exact ⟨h1, r', .tail _ hr', hn', hi'⟩
        · intro r2 hr2
          rcases List.mem_cons.mp hr2 with rfl | hr2
          · exact ⟨nc, cs, nf, fname, fid, hnc, hcs, hnf, hcmd, hfname, hfid,
              .inl ⟨ex, hex, heqid.symm⟩⟩
          · obtain ⟨nc', cs', nf', n', i', a1, a2, a3, a4, a5, a6, a7⟩ := hresp r2 hr2
            exact ⟨nc', cs', nf', n', i', a1, a2, a3, a4, a5, a6, a7⟩
      · rename_i hnone
        obtain ⟨Δ, hst, hΔ, hresp⟩ := ih stale (st ++ [⟨fid, fname, none, none⟩]) st' h
        refine ⟨⟨fid, fname, none, none⟩ :: Δ, by rw [hst]; simp, ?_, ?_⟩
        · intro d hd
          rcases List.mem_cons.mp hd with rfl | hd
          · exact ⟨hnone, (cmd, attrs), .head _, hfname, hfid⟩
          · obtain ⟨h1, r', hr', hn', hi'⟩ := hΔ d hd
            exact ⟨h1, r', .tail _ hr', hn', hi'⟩
        · intro r2 hr2
          rcases List.mem_cons.mp hr2 with rfl | hr2
          · exact ⟨nc, cs, nf, fname, fid, hnc, hcs, hnf, hcmd, hfname, hfid,
              .inr ⟨hnone, ⟨fid, fname, none, none⟩, .head _, rfl, rfl⟩⟩
          · obtain ⟨nc', cs', nf', n', i', a1, a2, a3, a4, a5, a6, a7⟩ := hresp r2 hr2
            refine ⟨nc', cs', nf', n', i', a1, a2, a3, a4, a5, a6, ?_⟩
            rcases a7 with hL | ⟨hR1, d', hd', hdn', hdi'⟩
            · exact .inl hL
            · exact .inr ⟨hR1, d', .tail _ hd', hdn', hdi'⟩

theorem bootstrapLoop_noop (rs : List (Nat × List (String × Value))) :
    ∀ (stale st : List MsgType),
    (∀ r, r ∈ rs → ∃ nc cs nf n i e,
      byName stale nlctrlName = some nc ∧ nc.commands = some cs ∧
      lookupStrNat cs ("newfamily") = some nf ∧ r.1 = nf ∧
      respName r.2 = .ok n ∧ respId r.2 = .ok i ∧
      byName stale n = some e ∧ e.id = i) →
    bootstrapLoop stale st rs = .ok st := by
  induction rs with
  | nil => intro stale st h; rfl
  | cons r rest ih =>
      intro stale st h
      obtain ⟨cmd, attrs⟩ := r
      obtain ⟨nc, cs, nf, n, i, e, hnc, hcs, hnf, hcmd, hn, hi, he, hei⟩ :=
        h _ (.head _)
      dsimp only at hcmd hn hi
      simp only [bootstrapLoop, hnc, hcs, hnf, hn, hi, he]
      rw [if_pos hcmd, if_pos hei.symm]
      exact ih stale st (fun r2 hr2 => h r2 (.tail _ hr2))

/-- C8 amended: provided no two responses in the sequence carry the same
family name with different family ids, running the bootstrap loop a
second time over the same responses from the registry the first run
produced leaves it unchanged: every name now present passes the id-match
assertion and nothing is appended. -/
theorem bootstrap_idempotent (rs : List (Nat × List (String × Value)))
    (st st' : List MsgType) (h1 : bootstrapRun st rs = .ok st')
    (hcons : RespConsistent rs) : bootstrapRun st' rs = .ok st' := by
  obtain ⟨Δ, rfl, hΔ, hresp⟩ := bootstrapLoop_char rs st st _ h1
  apply bootstrapLoop_noop
  intro r hr
  obtain ⟨nc, cs, nf, n, i, hnc, hcs, hnf, hcmd, hn, hi, hdisj⟩ := hresp r hr
  have hncD : byName Δ nlctrlName = none := by
    cases hbn : byName Δ nlctrlName with
    | none => rfl
    | some d =>
        obtain ⟨hdD, hdn⟩ := byName_eq_some Δ nlctrlName d hbn
        obtain ⟨hnone, -⟩ := hΔ d hdD
        rw [hdn, hnc] at hnone
        cases hnone
  have hnc' : byName (st ++ Δ) nlctrlName = some nc := by
    rw [byName_append, hncD]
    exact hnc
  rcases hdisj with ⟨e, he, hei⟩ | ⟨hnone, d, hdD, hdn, hdi⟩
  · have hDn : byName Δ n = none := by
      cases hbn : byName Δ n with
      | none => rfl
      | some d =>
          obtain ⟨hdD, hdn⟩ := byName_eq_some Δ n d hbn
          obtain ⟨hnone, -⟩ := hΔ d hdD
          rw [hdn, he] at hnone
          cases hnone
    refine ⟨nc, cs, nf, n, i, e, hnc', hcs, hnf, hcmd, hn, hi, ?_, hei⟩
    rw [byName_append, hDn]
    exact he
  · have hne := byName_ne_none Δ d hdD
    rw [hdn] at hne
    cases hbn : byName Δ n with
    | none => exact absurd hbn hne
    | some dstar =>
        obtain ⟨hdsD, hdsn⟩ := byName_eq_some Δ n dstar hbn
        obtain ⟨-, r', hr', hn', hi'⟩ := hΔ dstar hdsD
        rw [hdsn] at hn'
        have hid : i = dstar.id := hcons r r' hr hr' n i dstar.id hn hn' hi hi'
        refine ⟨nc, cs, nf, n, i, dstar, hnc', hcs, hnf, hcmd, hn, hi, ?_, hid.symm⟩
        rw [byName_append, hbn]

/-- Counterexample to C8 as stated: the stale by-name index lets the
first run append the same name twice with different ids, and the second
run then dies on the id-match assertion instead of leaving the registry
unchanged. -/
theorem bootstrap_idempotent_cex :
    bootstrapRun initialMsgTypes dupResponses = .ok dupRegistry ∧
    bootstrapRun dupRegistry dupResponses = .error .assertFail :=
  ⟨by rfl, by rfl⟩

/-- Witness for bootstrap_idempotent: a second run over one response
that discovered family foo with id 0x22 leaves the registry unchanged. -/
theorem bootstrap_idempotent_wit :
    bootstrapRun oneRegistry oneResponse = .ok oneRegistry :=
  bootstrap_idempotent oneResponse initialMsgTypes oneRegistry (by rfl)
    (by
      intro r r' hr hr' n i i' h1 h2 h3 h4
      simp only [oneResponse, List.mem_singleton] at hr hr'
      subst hr
      subst hr'
      rw [h3] at h4
      injection h4)

/-- Counterexample to C9 as stated: after a bootstrap discovery whose id
collides with the control family, the nlctrl descriptor is still in the
registry and reachable by name, but looking its own id up in the by-id
index returns the other descriptor, so the two indices no longer hold
the same descriptor set. -/
theorem registry_consistency_cex :
    bootstrapRun initialMsgTypes clashResponses = .ok clashRegistry ∧
    nlctrlDesc ∈ clashRegistry ∧
    byName clashRegistry nlctrlDesc.name = some nlctrlDesc ∧
    byId clashRegistry nlctrlDesc.id = some ⟨0x10, fooName, none, none⟩ ∧
    (⟨0x10, fooName, none, none⟩ : MsgType).name ≠ nlctrlDesc.name :=
  ⟨by rfl, .head _, by rfl, by rfl, by decide⟩

theorem updateLastByName_shape (n : List Nat) (p : Parser) (c : List (String × Nat)) :
    ∀ l : List MsgType,
      (updateLastByName l n p c).map (fun d => d.id) = l.map (fun d => d.id) ∧
      (updateLastByName l n p c).map (fun d => d.name) = l.map (fun d => d.name) := by
  intro l
  induction l with
  | nil => exact ⟨rfl, rfl⟩
  | cons m rest ih =>
      simp only [updateLastByName]
      by_cases h1 : (byName rest n).isSome
      · simp [h1, ih.1, ih.2]
      · by_cases h2 : m.name = n
        · simp [h1, h2]
        · simp [h1, h2]

theorem byId_self (l : List MsgType) (hid : l.Pairwise (fun a b => a.id ≠ b.id)) :
    ∀ d ∈ l, byId l d.id = some d := by
  induction l with
  | nil => intro d hd; cases hd
  | cons m rest ih =>
      obtain ⟨hm, hrest⟩ := List.pairwise_cons.mp hid
      intro d hd
      rcases List.mem_cons.mp hd with rfl | hd
      · have hnone : byId rest d.id = none :=
          byId_none rest d.id (fun e he => (hm e he).symm)
        simp [byId, hnone]
      · simp [byId, ih hrest d hd]

theorem byName_self (l : List MsgType)
    (hnm : l.Pairwise (fun a b => a.name ≠ b.name)) :
    ∀ d ∈ l, byName l d.name = some d := by
  induction l with
  | nil => intro d hd; cases hd
  | cons m rest ih =>
      obtain ⟨hm, hrest⟩ := List.pairwise_cons.mp hnm
      intro d hd
      rcases List.mem_cons.mp hd with rfl | hd
      · have hnone : byName rest d.name = none :=
          byName_none rest d.name (fun e he => (hm e he).symm)
        simp [byName, hnone]
      · simp [byName, ih hrest d hd]

/-- C9 amended: when the registry list holds pairwise-distinct ids and
pairwise-distinct names, the two derived indices are mutually
consistent: each descriptor is reachable under its own id in one and its
own name in the other, the two indices range over exactly the
descriptors of the one list both are rebuilt from, and RegisterMsgType
leaves the id and name columns of that list untouched. -/
theorem registry_indices_consistent (l : List MsgType)
    (hid : l.Pairwise (fun a b => a.id ≠ b.id))
    (hnm : l.Pairwise (fun a b => a.name ≠ b.name)) :
    (∀ d ∈ l, byId l d.id = some d ∧ byName l d.name = some d) ∧
    (∀ x, (∃ i, byId l i = some x) ↔ x ∈ l) ∧
    (∀ x, (∃ n, byName l n = some x) ↔ x ∈ l) ∧
    (∀ l' n p c, RegisterMsgTypeF l n p c = .ok l' →
      l'.map (fun d => d.id) = l.map (fun d => d.id) ∧
      l'.map (fun d => d.name) = l.map (fun d => d.name)) := by
  refine ⟨fun d hd => ⟨byId_self l hid d hd, byName_self l hnm d hd⟩, ?_, ?_, ?_⟩
  · intro x
    constructor
    · rintro ⟨i, hi⟩
      exact (byId_eq_some l i x hi).1
    · intro hx
      exact ⟨x.id, byId_self l hid x hx⟩
  · intro x
    constructor
    · rintro ⟨n, hn⟩
      exact (byName_eq_some l n x hn).1
    · intro hx
      exact ⟨x.name, byName_self l hnm x hx⟩
  · intro l' n p c h
    unfold RegisterMsgTypeF at h
    split at h
    · cases h
    · injection h with h
      subst h
      exact updateLastByName_shape n p c l

/-- Witness for registry_indices_consistent on the two-descriptor
registry left by discovering family foo. -/
theorem registry_indices_consistent_wit :
    byId oneRegistry 0x22 = some ⟨0x22, fooName, none, none⟩ ∧
    byName oneRegistry fooName = some ⟨0x22, fooName, none, none⟩ := by
  have h := (registry_indices_consistent oneRegistry
    (by simp [oneRegistry, initialMsgTypes])
    (by simp [oneRegistry, initialMsgTypes, fooName, nlctrlName])).1
    ⟨0x22, fooName, none, none⟩ (.tail _ (.head _))
  exact h

theorem dropWhile_self (p : Nat → Bool) (l : List Nat) :
    List.dropWhile p (List.dropWhile p l) = List.dropWhile p l := by
  induction l with
  | nil => rfl
  | cons a l ih =>
      by_cases h : p a = true
      · simp [List.dropWhile, h, ih]
      · simp [List.dropWhile, h]

theorem rstripNul_idem (s : List Nat) : rstripNul (rstripNul s) = rstripNul s := by
  unfold rstripNul
  rw [List.reverse_reverse, dropWhile_self]

theorem respName_stripped (attrs : List (String × Value)) (n : List Nat)
    (h : respName attrs = .ok n) : rstripNul n = n := by
  unfold respName at h
  split at h
  · cases h
  split at h
  · cases h
  rename_i s hs
  injection h with h
  rw [← h]
  exact rstripNul_idem s

/-- C10: every family name a bootstrap run adds to the registry has its
trailing NUL bytes already stripped, and concretely a family announced
as foo plus two NUL bytes is stored, found by the by-name lookup, and
registered by RegisterMsgType under the bare three-byte name. -/
theorem bootstrap_names_stripped :
    (∀ st rs st', bootstrapRun st rs = .ok st' →
      ∀ d ∈ st', d ∈ st ∨ rstripNul d.name = d.name) ∧
    (bootstrapRun initialMsgTypes padResponses = .ok padRegistry ∧
      byName padRegistry fooName = some ⟨0x23, fooName, none, none⟩ ∧
      RegisterMsgTypeF padRegistry fooName u32 [("cmd", 5)] =
        .ok [nlctrlDesc, ⟨0x23, fooName, some u32, some [("cmd", 5)]⟩]) := by
  refine ⟨?_, by rfl, by rfl, by rfl⟩
  intro st rs st' h d hd
  obtain ⟨Δ, rfl, hΔ, hresp⟩ := bootstrapLoop_char rs st st _ h
  rcases List.mem_append.mp hd with hl | hr
  · exact .inl hl
  · obtain ⟨-, r', hr', hn', hi'⟩ := hΔ d hr
    exact .inr (respName_stripped r'.2 d.name hn')

/-- Witness for bootstrap_names_stripped: the descriptor added for the
padded announcement carries the bare stripped name. -/
theorem bootstrap_names_stripped_wit :
    (⟨0x23, fooName, none, none⟩ : MsgType) ∈ initialMsgTypes ∨
      rstripNul (⟨0x23, fooName, none, none⟩ : MsgType).name =
        (⟨0x23, fooName, none, none⟩ : MsgType).name :=
  bootstrap_names_stripped.1 initialMsgTypes padResponses padRegistry (by rfl)
    ⟨0x23, fooName, none, none⟩ (.tail _ (.head _))
